import Mathlib

/-!
Shallow embedding of the FastLogger repository (SNJ namespace):
the SPSC ring buffer (`SPSCQueue.hpp`), the log-message encoding
(`LogMessage`), the formatter (`LogFormatter`), the thread-scoped
queue manager, and the `FastLogger` facade, together with proofs of
the specification claims.
-/

namespace SNJ


/-- Queue capacity of `SPSCQueue<T, QueueSize = 1024>` as instantiated by
`MessageQueue = SPSCQueue<LogMessage>`. -/
def QueueSize : Nat := 1024

/-- `kIndexMask = QueueSize - 1` from `SPSCQueue`. -/
def kIndexMask : Nat := QueueSize - 1

/-- `getNextIndex(i) = (i + 1) & kIndexMask` from `SPSCQueue`. -/
def getNextIndex (i : Nat) : Nat := (i + 1) &&& kIndexMask

/-- State of `SPSCQueue<T>`: the slot array `_mDataBuffer`, the consumer
index `_mHead` and the producer index `_mTail`. -/
structure SPSCQueue (α : Type) where
  buf : List α
  head : Nat
  tail : Nat

/-- Well-formedness: the buffer has exactly `QueueSize` slots and both
indices are in range (as maintained by `getNextIndex`). -/
structure SPSCQueue.WF {α : Type} (q : SPSCQueue α) : Prop where
  buf_len : q.buf.length = QueueSize
  head_lt : q.head < QueueSize
  tail_lt : q.tail < QueueSize

/-- A freshly constructed queue: zero indices, default-initialized slots. -/
def SPSCQueue.init (α : Type) [Inhabited α] : SPSCQueue α :=
  ⟨List.replicate QueueSize default, 0, 0⟩

/-- `IsEmpty()`: `head == tail`. -/
def SPSCQueue.IsEmpty {α : Type} (q : SPSCQueue α) : Bool :=
  q.head == q.tail

/-- `Enqueue`: compute `writeIndex = tail`, `nextWriteIndex = getNextIndex(tail)`;
while `nextWriteIndex == head` the producer spins (in a schedule where the
consumer takes no step this never terminates, modeled as `none`); otherwise the
slot at `writeIndex` is written and `tail` is advanced. -/
def SPSCQueue.Enqueue {α : Type} (q : SPSCQueue α) (x : α) : Option (SPSCQueue α) :=
  let writeIndex := q.tail
  let nextWriteIndex := getNextIndex writeIndex
  if nextWriteIndex = q.head then
    none
  else
    some ⟨q.buf.set writeIndex x, q.head, nextWriteIndex⟩

/-- `Dequeue(T& data)`: if `IsEmpty()` return `false` leaving everything
untouched; otherwise copy the slot at `head` into `data`, advance `head`,
return `true`.  The result is `(returned bool, data after the call, queue
after the call)`. -/
def SPSCQueue.Dequeue {α : Type} [Inhabited α] (q : SPSCQueue α) (data : α) :
    Bool × α × SPSCQueue α :=
  if q.IsEmpty then
    (false, data, q)
  else
    let readIndex := q.head
    (true, q.buf.getD readIndex default, ⟨q.buf, getNextIndex readIndex, q.tail⟩)

/-- Number of outstanding messages: distance from `head` to `tail` mod the
capacity. -/
def SPSCQueue.size {α : Type} (q : SPSCQueue α) : Nat :=
  (q.tail + QueueSize - q.head) % QueueSize

/-- Abstraction function: the outstanding messages from `head` (next to read)
up to but excluding `tail` (next to write), in FIFO order. -/
def SPSCQueue.contents {α : Type} [Inhabited α] (q : SPSCQueue α) : List α :=
  (List.range q.size).map (fun k => q.buf.getD ((q.head + k) % QueueSize) default)

/-- An operation of the single producer (`enq x`) or the single consumer
(`deq`) on one `SPSCQueue`, in a sequentially consistent interleaving. -/
inductive QOp (α : Type) where
  | enq (x : α)
  | deq

/-- Run a sequence of producer/consumer operations, recording the values
whose `Enqueue` completed and the values returned by successful `Dequeue`
calls.  An `enq` on a full queue leaves the state unchanged (the producer is
still spinning, so the call has not completed); a `deq` on an empty queue
returns `false` and records nothing. -/
def runOps {α : Type} [Inhabited α] :
    SPSCQueue α → List α → List α → List (QOp α) → SPSCQueue α × List α × List α
  | q, enqd, deqd, [] => (q, enqd, deqd)
  | q, enqd, deqd, QOp.enq x :: rest =>
      match q.Enqueue x with
      | none => runOps q enqd deqd rest
      | some q' => runOps q' (enqd ++ [x]) deqd rest
  | q, enqd, deqd, QOp.deq :: rest =>
      let r := q.Dequeue default
      if r.1 then runOps r.2.2 enqd (deqd ++ [r.2.1]) rest
      else runOps q enqd deqd rest

/-! ## Argument encoding (`LogMessage::CopyData` / `CopyArgs`) and decoding
(`LogFormatter::PrintData` / `Format`). Bytes are modeled as `Nat`. -/

/-- A producer-side argument, given by the bytes of its object
representation: a `const char*` (the pointed-to memory, read by `strlen` up
to its first null), a `std::string` (its `size()` bytes, which may contain
interior nulls), or a fixed-width scalar (its `sizeof(T)` raw bytes). -/
inductive LogArg where
  | strConst (bytes : List Nat)
  | strStd (bytes : List Nat)
  | scalar (bytes : List Nat)

/-- A byte that does not terminate a C string. -/
def nonNull (b : Nat) : Bool := decide (b ≠ 0)

/-- `LogMessage::CopyData`: the bytes one argument appends to the payload.
A `const char*` contributes `strlen` bytes plus a null terminator, a
`std::string` contributes all `size()` bytes plus a null terminator, and a
scalar contributes its raw bytes at the current packed offset. -/
def copyDataBytes : LogArg → List Nat
  | LogArg.strConst bs => bs.takeWhile nonNull ++ [0]
  | LogArg.strStd bs => bs ++ [0]
  | LogArg.scalar bs => bs

/-- `LogMessage::CopyArgs`: the arguments are encoded back to back. -/
def copyArgsBytes (args : List LogArg) : List Nat :=
  (args.map copyDataBytes).flatten

/-- The payload written by `LogMessage(formatter, level, args...)`: the level
byte at offset 0, then the encoded arguments from offset 1. -/
def messagePayload (lvl : Nat) (args : List LogArg) : List Nat :=
  lvl :: copyArgsBytes args

/-- An argument type as fixed by `LogFormatter<FormatString, CArgs...>`:
either one of the two string types, or a fixed-width scalar of size `w`
whose default stream rendering is computed from its raw bytes by `render`. -/
inductive ArgTy where
  | tstr
  | tscalar (w : Nat) (render : List Nat → List Char)

/-- `LogFormatter::PrintData`: consume one argument from the payload,
returning the consumed chunk and the advanced data pointer.  A string is
read up to (and skipped past) its null terminator; a scalar is read as its
`w` raw bytes. -/
def printDataChunk : ArgTy → List Nat → List Nat × List Nat
  | ArgTy.tstr, data =>
      let s := data.takeWhile nonNull
      (s, data.drop (s.length + 1))
  | ArgTy.tscalar w _, data => (data.take w, data.drop w)

/-- The text `PrintData` writes to the stream for one consumed chunk. -/
def renderChunk : ArgTy → List Nat → List Char
  | ArgTy.tstr, chunk => chunk.map Char.ofNat
  | ArgTy.tscalar _ r, chunk => r chunk

/-- The producer-side value matches the type the formatter will decode it
at: both string kinds decode as strings, a scalar's byte count must be the
type's size. -/
def argMatches : LogArg → ArgTy → Prop
  | LogArg.strConst _, ArgTy.tstr => True
  | LogArg.strStd _, ArgTy.tstr => True
  | LogArg.scalar bs, ArgTy.tscalar w _ => bs.length = w
  | _, _ => False

/-- The canonical chunk of an argument: what a correct decode should
recover (for a `const char*` this is the bytes before its terminator). -/
def argChunk : LogArg → List Nat
  | LogArg.strConst bs => bs.takeWhile nonNull
  | LogArg.strStd bs => bs
  | LogArg.scalar bs => bs

/-- A `std::string` argument has no interior null byte (the documented
supported domain); other kinds are unrestricted. -/
def argNullFree : LogArg → Prop
  | LogArg.strStd bs => 0 ∉ bs
  | _ => True

/-! ## Template splicing (`LogFormatter::Format`). -/

def lbrace : Char := '\x7b'

def rbrace : Char := '\x7d'

/-- The two-character placeholder searched for by `strstr(fmt, "\x7b\x7d")`. -/
def phStr : List Char := [lbrace, rbrace]

/-- `strstr(fmt, "\x7b\x7d")`: split the template at its first placeholder,
returning the literal prefix and the remainder after the placeholder, or
`none` when no placeholder occurs. -/
def splitPlaceholder : List Char → Option (List Char × List Char)
  | [] => none
  | c :: rest =>
      if c = lbrace ∧ rest.head? = some rbrace then some ([], rest.tail)
      else (splitPlaceholder rest).map (fun p => (c :: p.1, p.2))

/-- `LogFormatter::Format`: with no remaining argument types the rest of the
template is emitted verbatim; otherwise the literal text before the first
placeholder is emitted, one argument is decoded and rendered, and formatting
continues after the placeholder.  If no placeholder remains, the rest of the
template is emitted and the remaining arguments are dropped. -/
def formatSplice : List ArgTy → List Nat → List Char → List Char
  | [], _, fmt => fmt
  | ty :: tys, data, fmt =>
      match splitPlaceholder fmt with
      | none => fmt
      | some (pre, suf) =>
          pre ++ renderChunk ty (printDataChunk ty data).1
            ++ formatSplice tys (printDataChunk ty data).2 suf

/-- A template assembled from literal segments with one placeholder between
each two consecutive segments. -/
def joinTemplate : List (List Char) → List Char
  | [] => []
  | [s] => s
  | s :: rest => s ++ phStr ++ joinTemplate rest

/-- The expected rendering: each placeholder replaced by the corresponding
rendered argument. -/
def spliceOut : List (List Char) → List (List Char) → List Char
  | [], _ => []
  | [s], _ => s
  | s :: _ :: _, [] => s
  | s :: s' :: segs, r :: rs => s ++ r ++ spliceOut (s' :: segs) rs

/-- The renderings of the original arguments, each from its own canonical
bytes. -/
def argRenders (args : List LogArg) (tys : List ArgTy) : List (List Char) :=
  List.zipWith (fun a ty => renderChunk ty (argChunk a)) args tys

/-! ## Payload bounds (`_mDataBuffer[1024]`, no producer-side check). -/

/-- The fixed payload capacity `char _mDataBuffer[1024]`. -/
def payloadCapacity : Nat := 1024

/-- The `(offset, byte)` stores `CopyData` performs for one argument placed
at offset `off`. -/
def copyDataWrites (off : Nat) (a : LogArg) : List (Nat × Nat) :=
  List.enumFrom off (copyDataBytes a)

/-- The stores `CopyArgs` performs, packing arguments from offset `off`.
No bound is ever compared against the buffer capacity. -/
def copyArgsWrites : Nat → List LogArg → List (Nat × Nat)
  | _, [] => []
  | off, a :: rest =>
      copyDataWrites off a ++ copyArgsWrites (off + (copyDataBytes a).length) rest

/-- All stores of `LogMessage(formatter, level, args...)` into
`_mDataBuffer`: the level byte at offset 0, then the packed arguments from
offset 1. -/
def messageWrites (lvl : Nat) (args : List LogArg) : List (Nat × Nat) :=
  (0, lvl) :: copyArgsWrites 1 args

/-! ## `LogLevel`, `LogMessage`, `FastLogger::Log` (level filter) -/

/-- `enum class LogLevel : uint8_t { DEBUG, INFO, ERROR, FATAL }`. -/
inductive LogLevel where
  | DEBUG
  | INFO
  | ERROR
  | FATAL
deriving DecidableEq

/-- The underlying `uint8_t` value of a `LogLevel`. -/
def LogLevel.toNat : LogLevel → Nat
  | LogLevel.DEBUG => 0
  | LogLevel.INFO => 1
  | LogLevel.ERROR => 2
  | LogLevel.FATAL => 3

/-- `LogLevelToString` applied to the level byte read back from the payload
(`*reinterpret_cast<const LogLevel*>(_mDataBuffer)`): the four enumerators
map to their names, anything else falls through to `"INVALID"`. -/
def levelByteToString (b : Nat) : List Char :=
  match b with
  | 0 => ['D', 'E', 'B', 'U', 'G']
  | 1 => ['I', 'N', 'F', 'O']
  | 2 => ['E', 'R', 'R', 'O', 'R']
  | 3 => ['F', 'A', 'T', 'A', 'L']
  | _ => ['I', 'N', 'V', 'A', 'L', 'I', 'D']

/-- A `LogFormatter<FormatString, CArgs...>` singleton: its effective format
string and the argument type tuple it decodes with. -/
structure Formatter where
  template : List Char
  tys : List ArgTy

instance : Inhabited Formatter := ⟨⟨[], []⟩⟩

/-- `BaseLogFormatter::Evaluate`: splice the payload's arguments into the
format string. -/
def Formatter.Evaluate (f : Formatter) (data : List Nat) : List Char :=
  formatSplice f.tys data f.template

/-- A `LogMessage` slot: the formatter handle and the meaningful prefix of
`_mDataBuffer`. -/
structure LogMessage where
  formatter : Formatter
  payload : List Nat

instance : Inhabited LogMessage := ⟨⟨default, []⟩⟩

/-- The `LogMessage(formatter, level, args...)` constructor: level byte at
offset 0, packed arguments from offset 1. -/
def mkLogMessage (f : Formatter) (lvl : LogLevel) (args : List LogArg) : LogMessage :=
  ⟨f, messagePayload lvl.toNat args⟩

/-- `makeStringLiteral(str...)`: concatenation of the literals (each minus
its own null terminator, with one terminator at the end — i.e. plain string
concatenation). -/
def makeStringLiteral (parts : List (List Char)) : List Char :=
  parts.flatten

/-- The effective template the `FAST_LOG` macro bakes into the formatter:
`makeStringLiteral(__PRETTY_FUNCTION__, ":", formatString)`. -/
def fastLogTemplate (callsite user : List Char) : List Char :=
  makeStringLiteral [callsite, [':'], user]

/-- `FastLogger` state: the threshold `_mLogLevel` and, for each producer
thread, its thread-scoped `MessageQueue` (absent until the thread's first
logging call registers it). -/
structure FastLogger where
  logLevel : LogLevel
  queues : Nat → Option (SPSCQueue LogMessage)

/-- `FastLogger::Log`: if `level >= _mLogLevel`, obtain the calling thread's
queue (creating it on first call) and enqueue the constructed `LogMessage`;
otherwise do nothing.  `none` models the producer spinning forever on a full
ring in a schedule where the consumer takes no step. -/
def FastLogger.Log (L : FastLogger) (tid : Nat) (f : Formatter) (lvl : LogLevel)
    (args : List LogArg) : Option FastLogger :=
  if L.logLevel.toNat ≤ lvl.toNat then
    match ((L.queues tid).getD (SPSCQueue.init LogMessage)).Enqueue (mkLogMessage f lvl args) with
    | none => none
    | some q' => some ⟨L.logLevel, fun t => if t = tid then some q' else L.queues t⟩
  else
    some L

/-- The calling thread's queue contents (empty if the thread has no queue
yet). -/
def FastLogger.threadContents (L : FastLogger) (tid : Nat) : List LogMessage :=
  ((L.queues tid).getD (SPSCQueue.init LogMessage)).contents

/-! ## The drain pass (`FastLogger::ConsumeAndWriteLogs`) -/

/-- The civil-time fields `localtime_r` fills in at drain time. -/
structure Tm where
  year : Nat
  month : Nat
  day : Nat
  hour : Nat
  minute : Nat
  second : Nat

/-- A decimal number zero-padded on the left to `w` digits, as
`std::put_time`'s `%Y`/`%m`/`%d`/`%H`/`%M`/`%S` conversions produce. -/
def padNum (w n : Nat) : List Char :=
  let s := (Nat.repr n).toList
  List.replicate (w - s.length) '0' ++ s

/-- `put_time(&tm, "%Y-%m-%d %H:%M:%S")`. -/
def formatTimestamp (t : Tm) : List Char :=
  padNum 4 t.year ++ ['-'] ++ padNum 2 t.month ++ ['-'] ++ padNum 2 t.day ++ [' ']
    ++ padNum 2 t.hour ++ [':'] ++ padNum 2 t.minute ++ [':'] ++ padNum 2 t.second

/-- What the drain loop does to `_mFileStream`: a buffered write of one full
line, or a `flush()`. -/
inductive SinkEvent where
  | write (line : List Char)
  | flush

/-- One iteration body of `ConsumeAndWriteLogs` for a dequeued message:
`"[" + timestamp + "] [" + LogLevelToString(level byte) + "] "`, then the
formatter evaluated on the payload after the level byte, then `"\n"`. -/
def emitLine (t : Tm) (m : LogMessage) : List Char :=
  ['['] ++ formatTimestamp t ++ [']', ' ', '[']
    ++ levelByteToString (m.payload.getD 0 0) ++ [']', ' ']
    ++ m.formatter.Evaluate (m.payload.drop 1) ++ ['\n']

/-- The `while (queue.Dequeue(message))` loop of `ConsumeAndWriteLogs` on
one queue, with an explicit iteration budget: each dequeued message is
written as one line and the stream is flushed before the next iteration. -/
def drainQueue (t : Tm) : Nat → SPSCQueue LogMessage → List SinkEvent × SPSCQueue LogMessage
  | 0, q => ([], q)
  | Nat.succ fuel, q =>
      if (q.Dequeue default).1 then
        (SinkEvent.write (emitLine t (q.Dequeue default).2.1) :: SinkEvent.flush ::
          (drainQueue t fuel (q.Dequeue default).2.2).1,
         (drainQueue t fuel (q.Dequeue default).2.2).2)
      else ([], q)

/-! ## `ThreadScopedQueueManager::UnRegisterThreadScopedQueue` -/

/-- The manager's set of registered thread-scoped queues, keyed by the
queue's identity. -/
def QueueSet : Type := List (Nat × SPSCQueue LogMessage)

/-- `UnRegisterThreadScopedQueue`: the source checks `IsEmpty()` and, if the
ring is non-empty, calls `sleep(5)` — which changes no logger state in a
schedule where the drain thread takes no step — and then erases the entry
from the set unconditionally, whether or not the queue has become empty. -/
def UnRegisterThreadScopedQueue (mgr : QueueSet) (tid : Nat) : QueueSet :=
  List.filter (fun p => !(p.1 == tid)) mgr

/-! ## Theorems -/

/-- Masking with `kIndexMask = 2^10 - 1` is reduction mod `2^10`. -/
theorem and_kIndexMask_eq_mod (n : Nat) : n &&& kIndexMask = n % QueueSize := by
  have h1023 : kIndexMask = 2 ^ 10 - 1 := by norm_num [kIndexMask, QueueSize]
  have h1024 : QueueSize = 2 ^ 10 := by norm_num [QueueSize]
  apply Nat.eq_of_testBit_eq
  intro i
  rw [Nat.testBit_land, h1023, h1024, Nat.testBit_mod_two_pow,
    Nat.testBit_two_pow_sub_one, Bool.and_comm]

/-- The masked increment is the modular increment. -/
theorem getNextIndex_eq_mod (i : Nat) :
    getNextIndex i = (i + 1) % QueueSize := by
  rw [getNextIndex, and_kIndexMask_eq_mod]

theorem getNextIndex_lt (i : Nat) :
    getNextIndex i < QueueSize := by
  rw [getNextIndex_eq_mod]
  exact Nat.mod_lt _ (by norm_num [QueueSize])

theorem getD_set_ne {α : Type} (l : List α) (i j : Nat) (x d : α) (h : i ≠ j) :
    (l.set i x).getD j d = l.getD j d := by
  simp [List.getD_eq_getElem?_getD, List.getElem?_set_ne h]

theorem getD_set_self {α : Type} (l : List α) (i : Nat) (x d : α) (h : i < l.length) :
    (l.set i x).getD i d = x := by
  simp [List.getD_eq_getElem?_getD, List.getElem?_set_eq_of_lt x h]

theorem SPSCQueue.size_lt {α : Type} (q : SPSCQueue α) : q.size < QueueSize :=
  Nat.mod_lt _ (by norm_num [QueueSize])

theorem SPSCQueue.size_eq_zero_iff {α : Type} {q : SPSCQueue α} (hw : q.WF) :
    q.size = 0 ↔ q.head = q.tail := by
  have hh := hw.head_lt
  have ht := hw.tail_lt
  simp only [SPSCQueue.size, QueueSize] at *
  omega

theorem SPSCQueue.isEmpty_iff {α : Type} (q : SPSCQueue α) :
    q.IsEmpty = true ↔ q.head = q.tail := by
  simp [SPSCQueue.IsEmpty]

/-- A successful `Enqueue` (the producer does not spin) appends the new
element to the abstract contents and preserves well-formedness. -/
theorem SPSCQueue.enqueue_contents {α : Type} [Inhabited α] {q q' : SPSCQueue α} {x : α} (hw : q.WF)
    (h : q.Enqueue x = some q') :
    q'.contents = q.contents ++ [x] ∧ q'.WF := by
  have hh := hw.head_lt
  have ht := hw.tail_lt
  have hlen := hw.buf_len
  simp only [SPSCQueue.Enqueue] at h
  by_cases hfull : getNextIndex q.tail = q.head
  · simp [hfull] at h
  · simp only [hfull, if_neg, ite_false] at h
    obtain rfl : (⟨q.buf.set q.tail x, q.head, getNextIndex q.tail⟩ : SPSCQueue α) = q' :=
      Option.some.inj h
    have hwf' : SPSCQueue.WF ⟨q.buf.set q.tail x, q.head, getNextIndex q.tail⟩ :=
      ⟨by simpa using hlen, hh, getNextIndex_lt _⟩
    refine ⟨?_, hwf'⟩
    rw [getNextIndex_eq_mod] at hfull
    have hsize : SPSCQueue.size (⟨q.buf.set q.tail x, q.head, getNextIndex q.tail⟩ : SPSCQueue α)
        = q.size + 1 := by
      simp only [SPSCQueue.size, getNextIndex_eq_mod, QueueSize] at *
      omega
    simp only [SPSCQueue.contents, hsize, List.range_succ, List.map_append, List.map_cons,
      List.map_nil]
    congr 1
    · apply List.map_congr_left
      intro k hk
      simp only [List.mem_range] at hk
      apply getD_set_ne
      simp only [SPSCQueue.size, QueueSize] at *
      omega
    · have hidx : (q.head + q.size) % QueueSize = q.tail := by
        simp only [SPSCQueue.size, QueueSize] at *
        omega
      simp only [hidx]
      rw [getD_set_self]
      omega

/-- A successful `Dequeue` (queue non-empty) returns the front of the
abstract contents, removes it, and preserves well-formedness. -/
theorem SPSCQueue.dequeue_contents {α : Type} [Inhabited α] {q : SPSCQueue α} {d : α} (hw : q.WF)
    (hne : q.IsEmpty = false) :
    (q.Dequeue d).1 = true ∧
    q.contents = (q.Dequeue d).2.1 :: (q.Dequeue d).2.2.contents ∧
    (q.Dequeue d).2.2.WF := by
  have hh := hw.head_lt
  have ht := hw.tail_lt
  have hlen := hw.buf_len
  have hht : q.head ≠ q.tail := by
    simpa [SPSCQueue.IsEmpty] using hne
  simp only [SPSCQueue.Dequeue, hne, Bool.false_eq_true, if_neg, ite_false]
  refine ⟨trivial, ?_, ⟨hlen, getNextIndex_lt _, ht⟩⟩
  have hsz : q.size = SPSCQueue.size (⟨q.buf, getNextIndex q.head, q.tail⟩ : SPSCQueue α) + 1 := by
    simp only [SPSCQueue.size, getNextIndex_eq_mod, QueueSize] at *
    omega
  simp only [SPSCQueue.contents, hsz, List.range_succ_eq_map, List.map_cons, List.map_map]
  congr 1
  · have : q.head % QueueSize = q.head := Nat.mod_eq_of_lt hh
    simp [this]
  · apply List.map_congr_left
    intro k _
    simp only [Function.comp]
    congr 1
    simp only [getNextIndex_eq_mod, QueueSize] at *
    omega

theorem runOps_inv {α : Type} [Inhabited α] (ops : List (QOp α)) :
    ∀ (q : SPSCQueue α) (enqd deqd : List α), q.WF → deqd ++ q.contents = enqd →
      (runOps q enqd deqd ops).2.2 ++ (runOps q enqd deqd ops).1.contents
          = (runOps q enqd deqd ops).2.1
        ∧ (runOps q enqd deqd ops).1.WF := by
  induction ops with
  | nil => intro q enqd deqd hw hinv; exact ⟨hinv, hw⟩
  | cons op rest ih =>
    intro q enqd deqd hw hinv
    cases op with
    | enq x =>
      cases hE : q.Enqueue x with
      | none => simp only [runOps, hE]; exact ih q enqd deqd hw hinv
      | some q' =>
        obtain ⟨hc, hw'⟩ := SPSCQueue.enqueue_contents hw hE
        simp only [runOps, hE]
        refine ih q' (enqd ++ [x]) deqd hw' ?_
        rw [hc, ← List.append_assoc, hinv]
    | deq =>
      cases hEmp : q.IsEmpty with
      | true =>
        have hfalse : (q.Dequeue default).1 = false := by
          simp [SPSCQueue.Dequeue, hEmp]
        simp only [runOps, hfalse, Bool.false_eq_true, if_neg, ite_false]
        exact ih q enqd deqd hw hinv
      | false =>
        obtain ⟨hok, hc, hw'⟩ := SPSCQueue.dequeue_contents (d := default) hw hEmp
        simp only [runOps, hok, if_pos, ite_true]
        refine ih _ enqd (deqd ++ [(q.Dequeue default).2.1]) hw' ?_
        rw [List.append_assoc, List.singleton_append, ← hc, hinv]

theorem init_wf {α : Type} [Inhabited α] : (SPSCQueue.init α).WF :=
  ⟨by simp [SPSCQueue.init], by norm_num [SPSCQueue.init, QueueSize],
    by norm_num [SPSCQueue.init, QueueSize]⟩

theorem init_contents {α : Type} [Inhabited α] : (SPSCQueue.init α).contents = [] := by
  simp [SPSCQueue.contents, SPSCQueue.size, SPSCQueue.init]

/-- C1: for every sequence of producer/consumer operations starting from a
fresh `SPSCQueue`, the values returned by `Dequeue`, followed by the values
still outstanding in the ring, are exactly the values whose `Enqueue`
completed, in order; in particular the dequeued sequence is a prefix of the
enqueued sequence — same order, no duplicates, no fabricated values. -/
theorem C1_spsc_fifo {α : Type} [Inhabited α] (ops : List (QOp α)) :
    (runOps (SPSCQueue.init α) [] [] ops).2.2
        ++ (runOps (SPSCQueue.init α) [] [] ops).1.contents
      = (runOps (SPSCQueue.init α) [] [] ops).2.1
    ∧ (runOps (SPSCQueue.init α) [] [] ops).2.1.take
          (runOps (SPSCQueue.init α) [] [] ops).2.2.length
      = (runOps (SPSCQueue.init α) [] [] ops).2.2 := by
  obtain ⟨hinv, -⟩ :=
    runOps_inv ops (SPSCQueue.init α) [] [] init_wf (by rw [init_contents]; rfl)
  refine ⟨hinv, ?_⟩
  rw [← hinv, List.take_left]

theorem contents_length {α : Type} [Inhabited α] (q : SPSCQueue α) :
    q.contents.length = q.size := by
  simp [SPSCQueue.contents]

/-- C4: on a well-formed queue of capacity `QueueSize = 1024`, `IsEmpty`
holds iff `head = tail`; `Enqueue` finds the ring full (and spins) iff
`(tail + 1) % 1024 = head`; at most `1023` messages are outstanding; and a
full ring holds exactly `1023` outstanding messages (one slot is always
unused). -/
theorem C4_ring_buffer_invariants (q : SPSCQueue Nat) (hw : q.WF) :
    (q.IsEmpty = true ↔ q.head = q.tail)
    ∧ (∀ x : Nat, q.Enqueue x = none ↔ (q.tail + 1) % QueueSize = q.head)
    ∧ q.contents.length ≤ QueueSize - 1
    ∧ ((q.tail + 1) % QueueSize = q.head → q.contents.length = QueueSize - 1) := by
  have hh := hw.head_lt
  have ht := hw.tail_lt
  refine ⟨q.isEmpty_iff, ?_, ?_, ?_⟩
  · intro x
    simp only [SPSCQueue.Enqueue, getNextIndex_eq_mod]
    constructor
    · intro h
      by_contra hne
      simp [hne] at h
    · intro h
      simp [h]
  · have := q.size_lt (α := Nat)
    rw [contents_length]
    omega
  · intro hfull
    rw [contents_length]
    simp only [SPSCQueue.size, QueueSize] at *
    omega

theorem C4_ring_buffer_invariants_witness :
    (SPSCQueue.init Nat).WF
    ∧ ((SPSCQueue.init Nat).IsEmpty = true ↔ (SPSCQueue.init Nat).head = (SPSCQueue.init Nat).tail)
    ∧ (∀ x : Nat, (SPSCQueue.init Nat).Enqueue x = none
        ↔ ((SPSCQueue.init Nat).tail + 1) % QueueSize = (SPSCQueue.init Nat).head)
    ∧ (SPSCQueue.init Nat).contents.length ≤ QueueSize - 1
    ∧ (((SPSCQueue.init Nat).tail + 1) % QueueSize = (SPSCQueue.init Nat).head
        → (SPSCQueue.init Nat).contents.length = QueueSize - 1) :=
  ⟨init_wf, C4_ring_buffer_invariants (SPSCQueue.init Nat) init_wf⟩

/-- C9: `Dequeue` returns `false` iff the queue is empty (`head = tail`), and
in that case the output slot, the buffer, and both indices are all left
unchanged. -/
theorem C9_dequeue_none_iff_empty {α : Type} [Inhabited α] (q : SPSCQueue α) (d : α) :
    ((q.Dequeue d).1 = false ↔ q.head = q.tail)
    ∧ ((q.Dequeue d).1 = false → (q.Dequeue d).2.1 = d ∧ (q.Dequeue d).2.2 = q) := by
  cases hEmp : q.IsEmpty with
  | true =>
    have hht : q.head = q.tail := q.isEmpty_iff.mp hEmp
    simp [SPSCQueue.Dequeue, hEmp, hht]
  | false =>
    have hht : ¬ q.head = q.tail := by
      intro h
      rw [q.isEmpty_iff.mpr h] at hEmp
      exact absurd hEmp (by simp)
    simp [SPSCQueue.Dequeue, hEmp, hht]

/-- C10: a completed `Enqueue` on a non-full queue writes exactly the slot at
the old `tail`, advances `tail` to `(tail + 1) & (QueueSize - 1)` and leaves
`head` and every other slot unchanged; `Dequeue` never writes the buffer,
never changes `tail`, and advances `head` by one (mod the capacity) exactly
when the queue is non-empty. -/
theorem C10_frame_conditions {α : Type} [Inhabited α] (q : SPSCQueue α) (x d : α)
    (hw : q.WF) :
    (∀ q', q.Enqueue x = some q' →
      q'.head = q.head ∧ q'.tail = getNextIndex q.tail
      ∧ q'.buf.getD q.tail default = x
      ∧ ∀ j, j ≠ q.tail → q'.buf.getD j default = q.buf.getD j default)
    ∧ ((q.Dequeue d).2.2.buf = q.buf ∧ (q.Dequeue d).2.2.tail = q.tail
      ∧ (if q.IsEmpty then (q.Dequeue d).2.2.head = q.head
         else (q.Dequeue d).2.2.head = getNextIndex q.head)) := by
  constructor
  · intro q' hq'
    simp only [SPSCQueue.Enqueue] at hq'
    by_cases hfull : getNextIndex q.tail = q.head
    · simp [hfull] at hq'
    · simp only [hfull, if_neg, ite_false] at hq'
      obtain rfl : (⟨q.buf.set q.tail x, q.head, getNextIndex q.tail⟩ : SPSCQueue α) = q' :=
        Option.some.inj hq'
      refine ⟨rfl, rfl, ?_, ?_⟩
      · exact getD_set_self _ _ _ _ (by rw [hw.buf_len]; exact hw.tail_lt)
      · intro j hj
        exact getD_set_ne _ _ _ _ _ (fun h => hj h.symm)
  · cases hEmp : q.IsEmpty with
    | true => simp [SPSCQueue.Dequeue, hEmp]
    | false => simp [SPSCQueue.Dequeue, hEmp]

theorem takeWhile_append_zero (pre t : List Nat) (h : ∀ b ∈ pre, b ≠ 0) :
    (pre ++ 0 :: t).takeWhile nonNull = pre := by
  induction pre with
  | nil => simp [List.takeWhile, nonNull]
  | cons a pre ih =>
    have ha : a ≠ 0 := h a (by simp)
    simp only [List.cons_append, List.takeWhile_cons]
    rw [if_pos (by simp [nonNull, ha])]
    rw [ih (fun b hb => h b (by simp [hb]))]

theorem drop_append_zero (pre t : List Nat) :
    (pre ++ 0 :: t).drop (pre.length + 1) = t := by
  have h1 : pre ++ 0 :: t = (pre ++ [0]) ++ t := by simp
  have h2 : pre.length + 1 = (pre ++ [0]).length := by simp
  rw [h1, h2, List.drop_left]

theorem printData_tstr_readback (pre t : List Nat) (h : ∀ b ∈ pre, b ≠ 0) :
    printDataChunk ArgTy.tstr (pre ++ 0 :: t) = (pre, t) := by
  simp only [printDataChunk, takeWhile_append_zero pre t h]
  rw [drop_append_zero]

/-- Round-trip at the byte level: decoding one encoded argument (with
arbitrary following payload) recovers its canonical chunk and resumes
exactly at the following payload. -/
theorem copyData_readback (a : LogArg) (ty : ArgTy) (rest : List Nat)
    (hm : argMatches a ty) (hn : argNullFree a) :
    printDataChunk ty (copyDataBytes a ++ rest) = (argChunk a, rest) := by
  cases a with
  | strConst bs =>
    cases ty with
    | tstr =>
      simp only [copyDataBytes, argChunk, List.append_assoc, List.singleton_append]
      exact printData_tstr_readback _ _ (fun b hb => by
        simpa [nonNull] using List.mem_takeWhile_imp hb)
    | tscalar w r => exact absurd hm (by simp [argMatches])
  | strStd bs =>
    cases ty with
    | tstr =>
      simp only [copyDataBytes, argChunk, List.append_assoc, List.singleton_append]
      exact printData_tstr_readback _ _ (fun b hb => by
        intro hb0
        exact hn (hb0 ▸ hb))
    | tscalar w r => exact absurd hm (by simp [argMatches])
  | scalar bs =>
    cases ty with
    | tstr => exact absurd hm (by simp [argMatches])
    | tscalar w r =>
      have hw : bs.length = w := hm
      simp only [copyDataBytes, argChunk, printDataChunk]
      rw [← hw, List.take_left, List.drop_left]

theorem splitPlaceholder_none (s : List Char) (h : lbrace ∉ s) :
    splitPlaceholder s = none := by
  induction s with
  | nil => rfl
  | cons c rest ih =>
    have hc : c ≠ lbrace := fun hc => h (by simp [hc])
    simp only [splitPlaceholder, hc, false_and, if_neg, ite_false, not_false_iff]
    rw [ih (fun hr => h (by simp [hr]))]
    rfl

theorem splitPlaceholder_append (s t : List Char) (h : lbrace ∉ s) :
    splitPlaceholder (s ++ phStr ++ t) = some (s, t) := by
  induction s with
  | nil =>
    simp [splitPlaceholder, phStr]
  | cons c s ih =>
    have hc : c ≠ lbrace := fun hc => h (by simp [hc])
    simp only [List.cons_append, splitPlaceholder, hc, false_and, if_neg, ite_false]
    rw [show (s.append phStr).append t = s ++ phStr ++ t from rfl,
      ih (fun hs => h (by simp [hs]))]
    rfl

/-- C3: for every tuple of supported arguments (fixed-width scalars —
integers, floating-point numbers, booleans — and strings without interior
nulls) matching the formatter's type tuple, splicing the encoded payload
into a template with one placeholder per argument yields the template's
literal segments with each placeholder replaced by the default textual
rendering of the corresponding original argument: scalars are decoded from
their raw bytes at the packed offset and strings from their bytes up to the
null terminator. -/
theorem C3_encode_decode_roundtrip (args : List LogArg) (tys : List ArgTy)
    (segs : List (List Char))
    (hm : List.Forall₂ argMatches args tys)
    (hn : ∀ a ∈ args, argNullFree a)
    (hlen : segs.length = args.length + 1)
    (hseg : ∀ s ∈ segs.dropLast, lbrace ∉ s) :
    formatSplice tys (copyArgsBytes args) (joinTemplate segs)
      = spliceOut segs (argRenders args tys) := by
  induction hm generalizing segs with
  | nil =>
    match segs, hlen with
    | [s], _ => simp [formatSplice, joinTemplate, spliceOut, argRenders]
  | @cons a ty args' tys' hmat hrest ih =>
    match segs, hlen with
    | s :: s' :: segs', hlen =>
      have hs : lbrace ∉ s := hseg s (by
        simp [List.dropLast_cons_of_ne_nil])
      have hjoin : joinTemplate (s :: s' :: segs') = s ++ phStr ++ joinTemplate (s' :: segs') :=
        rfl
      have hdata : copyArgsBytes (a :: args')
          = copyDataBytes a ++ copyArgsBytes args' := by
        simp [copyArgsBytes]
      simp only [formatSplice, hjoin, splitPlaceholder_append s _ hs, hdata,
        copyData_readback a ty _ hmat (hn a (by simp))]
      have ihx := ih (s' :: segs')
        (fun x hx => hn x (by simp [hx]))
        (by simpa using hlen)
        (fun x hx => hseg x (by
          rcases segs' with - | ⟨u, us⟩
          · simp at hx
          · simpa [List.dropLast_cons_of_ne_nil] using Or.inr hx))
      rw [ihx]
      simp [spliceOut, argRenders]

theorem C3_encode_decode_roundtrip_witness :
    (List.Forall₂ argMatches
        [LogArg.scalar [42], LogArg.strConst [104, 105, 0, 120]]
        [ArgTy.tscalar 1 (fun bs => (Nat.repr (bs.getD 0 0)).toList), ArgTy.tstr]
      ∧ (∀ a ∈ [LogArg.scalar [42], LogArg.strConst [104, 105, 0, 120]], argNullFree a)
      ∧ ([['x', '='], [' ', 's', '='], ['!']] : List (List Char)).length
          = [LogArg.scalar [42], LogArg.strConst [104, 105, 0, 120]].length + 1
      ∧ (∀ s ∈ ([['x', '='], [' ', 's', '='], ['!']] : List (List Char)).dropLast, lbrace ∉ s))
    ∧ formatSplice
        [ArgTy.tscalar 1 (fun bs => (Nat.repr (bs.getD 0 0)).toList), ArgTy.tstr]
        (copyArgsBytes [LogArg.scalar [42], LogArg.strConst [104, 105, 0, 120]])
        (joinTemplate [['x', '='], [' ', 's', '='], ['!']])
      = spliceOut [['x', '='], [' ', 's', '='], ['!']]
          (argRenders [LogArg.scalar [42], LogArg.strConst [104, 105, 0, 120]]
            [ArgTy.tscalar 1 (fun bs => (Nat.repr (bs.getD 0 0)).toList), ArgTy.tstr]) :=
  ⟨⟨by refine List.Forall₂.cons ?_ (List.Forall₂.cons ?_ List.Forall₂.nil) <;>
        simp [argMatches],
    by intro a ha
       simp only [List.mem_cons, List.mem_singleton] at ha
       rcases ha with rfl | rfl | h
       · trivial
       · trivial
       · exact absurd h (List.not_mem_nil a),
    by simp,
    by decide⟩,
   C3_encode_decode_roundtrip _ _ _
     (by refine List.Forall₂.cons ?_ (List.Forall₂.cons ?_ List.Forall₂.nil) <;>
        simp [argMatches])
     (by intro a ha
         simp only [List.mem_cons, List.mem_singleton] at ha
         rcases ha with rfl | rfl | h
         · trivial
         · trivial
         · exact absurd h (List.not_mem_nil a))
     (by simp)
     (by decide)⟩

theorem copyArgsWrites_offsets (args : List LogArg) : ∀ off : Nat,
    (copyArgsWrites off args).map Prod.fst
      = List.range' off (copyArgsBytes args).length := by
  induction args with
  | nil => intro off; simp [copyArgsWrites, copyArgsBytes]
  | cons a rest ih =>
    intro off
    simp only [copyArgsWrites, copyDataWrites, List.map_append, List.enumFrom_map_fst, ih,
      copyArgsBytes, List.map_cons, List.flatten_cons, List.length_append]
    rw [List.range'_append_1, Nat.add_comm]

/-- C6 (failing input): the encoded bytes of a single 1024-byte
`std::string` argument exceed the 1024-byte payload; the constructor
performs no check and stores a byte at offset 1025, outside
`_mDataBuffer[1024]`. -/
theorem C6_overflow_writes_outside_buffer :
    ∃ w ∈ messageWrites 1 [LogArg.strStd (List.replicate 1024 97)],
      payloadCapacity ≤ w.1 := by
  have hgen : ∀ bs : List Nat, (copyArgsBytes [LogArg.strStd bs]).length = bs.length + 1 := by
    intro bs
    simp [copyArgsBytes, copyDataBytes]
  have hlen : (copyArgsBytes [LogArg.strStd (List.replicate 1024 97)]).length = 1025 := by
    rw [hgen, List.length_replicate]
  have hoff := copyArgsWrites_offsets [LogArg.strStd (List.replicate 1024 97)] 1
  rw [hlen] at hoff
  have h1025 : (1025 : Nat)
      ∈ (copyArgsWrites 1 [LogArg.strStd (List.replicate 1024 97)]).map Prod.fst := by
    rw [hoff]
    rw [List.mem_range']
    exact ⟨1024, by omega, by omega⟩
  obtain ⟨w, hw, hfst⟩ := List.mem_map.mp h1025
  refine ⟨w, ?_, ?_⟩
  · exact List.mem_cons_of_mem _ hw
  · show (1024 : Nat) ≤ w.1
    omega

/-- C7 (counterexample): for the `std::string` argument `"a\x00b"` the
encoded payload is not the encoding of the prefix `"a"` (all three bytes are
copied), and with a following one-byte scalar argument the decoder resumes
inside the string's residual bytes, so the subsequent argument decodes at a
different position than under the prefix encoding. -/
theorem C7_interior_null_counterexample :
    copyDataBytes (LogArg.strStd [97, 0, 98]) ≠ copyDataBytes (LogArg.strStd [97])
    ∧ (printDataChunk ArgTy.tstr (copyDataBytes (LogArg.strStd [97, 0, 98]) ++ [5])).2
        ≠ (printDataChunk ArgTy.tstr (copyDataBytes (LogArg.strStd [97]) ++ [5])).2 := by
  constructor
  · decide
  · decide

/-- C7 as amended: encoding truncates at the first null only for
`const char*` arguments, where payload, rendered text and the resume
position all match the prefix encoding exactly.  For a `std::string` with an
interior null, all bytes are copied followed by a terminator; the decoder
renders only the prefix before the first null and resumes immediately after
that null — inside the string's residual bytes — so subsequent arguments
decode at shifted positions. -/
theorem C7_interior_null_amended (pre suf rest : List Nat) (h : ∀ b ∈ pre, b ≠ 0) :
    (copyDataBytes (LogArg.strConst (pre ++ 0 :: suf)) = pre ++ [0]
      ∧ printDataChunk ArgTy.tstr (copyDataBytes (LogArg.strConst (pre ++ 0 :: suf)) ++ rest)
          = (pre, rest))
    ∧ (copyDataBytes (LogArg.strStd (pre ++ 0 :: suf)) = (pre ++ 0 :: suf) ++ [0]
      ∧ printDataChunk ArgTy.tstr (copyDataBytes (LogArg.strStd (pre ++ 0 :: suf)) ++ rest)
          = (pre, suf ++ 0 :: rest)) := by
  have htw : (pre ++ 0 :: suf).takeWhile nonNull = pre := takeWhile_append_zero _ _ h
  refine ⟨⟨?_, ?_⟩, ⟨rfl, ?_⟩⟩
  · simp [copyDataBytes, htw]
  · have : copyDataBytes (LogArg.strConst (pre ++ 0 :: suf)) ++ rest = pre ++ 0 :: rest := by
      simp [copyDataBytes, htw]
    rw [this]
    exact printData_tstr_readback _ _ h
  · have : copyDataBytes (LogArg.strStd (pre ++ 0 :: suf)) ++ rest
        = pre ++ 0 :: (suf ++ 0 :: rest) := by
      simp [copyDataBytes]
    rw [this]
    exact printData_tstr_readback _ _ h

theorem C7_interior_null_amended_witness :
    (∀ b ∈ [97], b ≠ 0)
    ∧ ((copyDataBytes (LogArg.strConst ([97] ++ 0 :: [98])) = [97] ++ [0]
      ∧ printDataChunk ArgTy.tstr (copyDataBytes (LogArg.strConst ([97] ++ 0 :: [98])) ++ [5])
          = ([97], [5]))
    ∧ (copyDataBytes (LogArg.strStd ([97] ++ 0 :: [98])) = ([97] ++ 0 :: [98]) ++ [0]
      ∧ printDataChunk ArgTy.tstr (copyDataBytes (LogArg.strStd ([97] ++ 0 :: [98])) ++ [5])
          = ([97], [98] ++ 0 :: [5]))) :=
  ⟨by decide, C7_interior_null_amended [97] [98] [5] (by decide)⟩

theorem C10_frame_conditions_witness :
    (SPSCQueue.init Nat).WF
    ∧ ((∀ q', (SPSCQueue.init Nat).Enqueue 5 = some q' →
        q'.head = (SPSCQueue.init Nat).head ∧ q'.tail = getNextIndex (SPSCQueue.init Nat).tail
        ∧ q'.buf.getD (SPSCQueue.init Nat).tail default = 5
        ∧ ∀ j, j ≠ (SPSCQueue.init Nat).tail →
            q'.buf.getD j default = (SPSCQueue.init Nat).buf.getD j default)
      ∧ (((SPSCQueue.init Nat).Dequeue 7).2.2.buf = (SPSCQueue.init Nat).buf
        ∧ ((SPSCQueue.init Nat).Dequeue 7).2.2.tail = (SPSCQueue.init Nat).tail
        ∧ (if (SPSCQueue.init Nat).IsEmpty
           then ((SPSCQueue.init Nat).Dequeue 7).2.2.head = (SPSCQueue.init Nat).head
           else ((SPSCQueue.init Nat).Dequeue 7).2.2.head
              = getNextIndex (SPSCQueue.init Nat).head))) :=
  ⟨init_wf, C10_frame_conditions (SPSCQueue.init Nat) 5 7 init_wf⟩

/-- C2: with threshold `T = L.logLevel`, a `Log(formatter, level, args)`
call with `level < T` returns with every queue unchanged, and a completed
call with `level ≥ T` appends to the calling thread's queue exactly one
message — whose payload is the level byte followed by the encoded
arguments — leaving the threshold and every other thread's queue
unchanged. -/
theorem C2_log_level_filter (L : FastLogger) (tid : Nat) (f : Formatter)
    (lvl : LogLevel) (args : List LogArg)
    (hwf : ∀ t q, L.queues t = some q → q.WF) :
    (lvl.toNat < L.logLevel.toNat → L.Log tid f lvl args = some L)
    ∧ (L.logLevel.toNat ≤ lvl.toNat →
        ∀ L', L.Log tid f lvl args = some L' →
          L'.logLevel = L.logLevel
          ∧ L'.threadContents tid
              = L.threadContents tid ++ [⟨f, lvl.toNat :: copyArgsBytes args⟩]
          ∧ ∀ t, t ≠ tid → L'.queues t = L.queues t) := by
  constructor
  · intro hlt
    rw [FastLogger.Log, if_neg (by omega)]
  · intro hge L' hL'
    rw [FastLogger.Log, if_pos hge] at hL'
    have hwq : ((L.queues tid).getD (SPSCQueue.init LogMessage)).WF := by
      cases hq : L.queues tid with
      | none => simpa [hq] using init_wf
      | some q => simpa [hq] using hwf tid q hq
    cases hE : ((L.queues tid).getD (SPSCQueue.init LogMessage)).Enqueue
        (mkLogMessage f lvl args) with
    | none =>
      rw [hE] at hL'
      exact Option.noConfusion hL'
    | some q' =>
      rw [hE] at hL'
      obtain rfl : (⟨L.logLevel, fun t => if t = tid then some q' else L.queues t⟩
          : FastLogger) = L' := Option.some.inj hL'
      obtain ⟨hc, -⟩ := SPSCQueue.enqueue_contents hwq hE
      refine ⟨rfl, ?_, ?_⟩
      · simp only [FastLogger.threadContents, eq_self_iff_true, if_true, Option.getD_some]
        rw [hc]
        rfl
      · intro t ht
        simp [ht]

theorem C2_log_level_filter_witness :
    (∀ t q, (⟨LogLevel.INFO, fun _ => none⟩ : FastLogger).queues t = some q → q.WF)
    ∧ ((LogLevel.DEBUG.toNat < (⟨LogLevel.INFO, fun _ => none⟩ : FastLogger).logLevel.toNat →
        (⟨LogLevel.INFO, fun _ => none⟩ : FastLogger).Log 0 default LogLevel.DEBUG []
          = some ⟨LogLevel.INFO, fun _ => none⟩)
      ∧ ((⟨LogLevel.INFO, fun _ => none⟩ : FastLogger).logLevel.toNat ≤ LogLevel.ERROR.toNat →
        ∀ L', (⟨LogLevel.INFO, fun _ => none⟩ : FastLogger).Log 0 default LogLevel.ERROR []
            = some L' →
          L'.logLevel = (⟨LogLevel.INFO, fun _ => none⟩ : FastLogger).logLevel
          ∧ L'.threadContents 0
              = (⟨LogLevel.INFO, fun _ => none⟩ : FastLogger).threadContents 0
                ++ [⟨default, LogLevel.ERROR.toNat :: copyArgsBytes []⟩]
          ∧ ∀ t, t ≠ 0 → L'.queues t = (⟨LogLevel.INFO, fun _ => none⟩ : FastLogger).queues t)) :=
  ⟨fun t q h => absurd h (by simp),
   ⟨(C2_log_level_filter _ 0 default LogLevel.DEBUG [] (fun t q h => absurd h (by simp))).1,
    (C2_log_level_filter _ 0 default LogLevel.ERROR [] (fun t q h => absurd h (by simp))).2⟩⟩

theorem contents_eq_nil_of_isEmpty {q : SPSCQueue LogMessage} (hw : q.WF)
    (hEmp : q.IsEmpty = true) : q.contents = [] := by
  have hsz := (SPSCQueue.size_eq_zero_iff (α := LogMessage) hw).mpr (q.isEmpty_iff.mp hEmp)
  rwa [← contents_length, List.length_eq_zero] at hsz

theorem drainQueue_spec (t : Tm) : ∀ (fuel : Nat) (q : SPSCQueue LogMessage), q.WF →
    q.contents.length ≤ fuel →
    (drainQueue t fuel q).1
        = (q.contents.map (fun m => [SinkEvent.write (emitLine t m), SinkEvent.flush])).flatten
    ∧ (drainQueue t fuel q).2.contents = [] := by
  intro fuel
  induction fuel with
  | zero =>
    intro q hw hf
    have hc : q.contents = [] := List.length_eq_zero.mp (Nat.le_zero.mp hf)
    simp [drainQueue, hc]
  | succ fuel ih =>
    intro q hw hf
    cases hEmp : q.IsEmpty with
    | true =>
      have hc : q.contents = [] := contents_eq_nil_of_isEmpty hw hEmp
      have hfalse : (q.Dequeue default).1 = false := by
        simp [SPSCQueue.Dequeue, hEmp]
      simp [drainQueue, hfalse, hc]
    | false =>
      obtain ⟨hok, hc, hw'⟩ := SPSCQueue.dequeue_contents (d := default) hw hEmp
      have hlen : (q.Dequeue default).2.2.contents.length ≤ fuel := by
        have hlc := congrArg List.length hc
        simp only [List.length_cons] at hlc
        omega
      obtain ⟨h1, h2⟩ := ih (q.Dequeue default).2.2 hw' hlen
      simp only [drainQueue, hok, if_pos, ite_true]
      refine ⟨?_, h2⟩
      rw [hc]
      simp [h1]

/-- C5: a drain pass over a queue emits, for each outstanding message in
FIFO order, exactly one `write` of a full line followed by one `flush`
(so the sink is flushed after each line before the next is emitted), leaves
the queue empty, and every line has exactly the form
`[timestamp] [LEVEL] <spliced effective template>\n` — where for a
formatter built by `FAST_LOG` the effective template is the call-site
identifier, the literal `":"`, and the user template concatenated, spliced
with the decoded arguments. -/
theorem C5_drain_line_format (t : Tm) (fuel : Nat) (q : SPSCQueue LogMessage)
    (hw : q.WF) (hfuel : q.contents.length ≤ fuel) :
    (drainQueue t fuel q).1
        = (q.contents.map (fun m => [SinkEvent.write (emitLine t m), SinkEvent.flush])).flatten
    ∧ (drainQueue t fuel q).2.contents = []
    ∧ (∀ m : LogMessage, ∀ callsite user : List Char,
        m.formatter.template = fastLogTemplate callsite user →
        emitLine t m
          = ['['] ++ formatTimestamp t ++ [']', ' ', '[']
            ++ levelByteToString (m.payload.getD 0 0) ++ [']', ' ']
            ++ formatSplice m.formatter.tys (m.payload.drop 1) (callsite ++ ':' :: user)
            ++ ['\n']) := by
  obtain ⟨h1, h2⟩ := drainQueue_spec t fuel q hw hfuel
  refine ⟨h1, h2, ?_⟩
  intro m callsite user hm
  simp [emitLine, Formatter.Evaluate, hm, fastLogTemplate, makeStringLiteral]

theorem C5_drain_line_format_witness :
    (SPSCQueue.init LogMessage).WF
    ∧ (SPSCQueue.init LogMessage).contents.length ≤ 0
    ∧ ((drainQueue ⟨2026, 1, 2, 3, 4, 5⟩ 0 (SPSCQueue.init LogMessage)).1
        = ((SPSCQueue.init LogMessage).contents.map
            (fun m => [SinkEvent.write (emitLine ⟨2026, 1, 2, 3, 4, 5⟩ m), SinkEvent.flush])).flatten
      ∧ (drainQueue ⟨2026, 1, 2, 3, 4, 5⟩ 0 (SPSCQueue.init LogMessage)).2.contents = []
      ∧ (∀ m : LogMessage, ∀ callsite user : List Char,
          m.formatter.template = fastLogTemplate callsite user →
          emitLine ⟨2026, 1, 2, 3, 4, 5⟩ m
            = ['['] ++ formatTimestamp ⟨2026, 1, 2, 3, 4, 5⟩ ++ [']', ' ', '[']
              ++ levelByteToString (m.payload.getD 0 0) ++ [']', ' ']
              ++ formatSplice m.formatter.tys (m.payload.drop 1) (callsite ++ ':' :: user)
              ++ ['\n'])) :=
  ⟨init_wf, by simp [init_contents],
   C5_drain_line_format ⟨2026, 1, 2, 3, 4, 5⟩ 0 (SPSCQueue.init LogMessage) init_wf
     (by simp [init_contents])⟩

/-- C8 (failing schedule): a queue holding one residual message is
unregistered; the entry is removed from the manager's set while
`IsEmpty()` is still false, contradicting the claim that removal happens
only once the drainer has emptied the queue. -/
theorem C8_unregister_removes_nonempty_queue :
    ∃ q : SPSCQueue LogMessage,
      (SPSCQueue.init LogMessage).Enqueue (⟨default, [1]⟩ : LogMessage) = some q
      ∧ q.IsEmpty = false
      ∧ UnRegisterThreadScopedQueue [(0, q)] 0 = [] := by
  refine ⟨_, rfl, rfl, rfl⟩

end SNJ

